import Mathlib

/-!
Verification of the code-intelligence core of the `code-browser` service.

The definitions below are a shallow embedding of the Go code in
`internal/analysis/service.go` (plus the wire types in the `analysis`
package).  Go `int32` values are modelled as `Int`; SCIP protobuf messages
(`scip.Index`, `scip.Document`, `scip.Occurrence`) are modelled as plain
structures; a Go slice-index panic is modelled by an `Option` result whose
`none` case means "the Go code panics here"; a Go `(value, error)` pair is
modelled by `Except String`.
-/

namespace CodeBrowser

/-- Embeds `scip.Occurrence`: symbol string, `Range` slice and role bitfield. -/
structure Occurrence where
  symbol : String
  range : List Int
  symbolRoles : Int
deriving DecidableEq, Repr

/-- Embeds `scip.Document`: relative path and occurrence list. -/
structure Document where
  relativePath : String
  occurrences : List Occurrence
deriving DecidableEq, Repr

/-- Embeds `scip.Index`: a list of documents. -/
structure Index where
  documents : List Document
deriving DecidableEq, Repr

/-- Embeds the wire type `analysis.Location`. -/
structure Location where
  startLine : Int
  startColumn : Int
  endLine : Int
  endColumn : Int
deriving DecidableEq, Repr

/-- Embeds the wire type `analysis.DefinitionResponse`. -/
structure DefinitionResponse where
  kind : String
  repoID : String
  filePath : String
  range : Location
  source : String
deriving DecidableEq, Repr

/-- Embeds `search.SearchResult` (the per-line content-search match). -/
structure SearchResult where
  path : String
  lineNum : Int
deriving DecidableEq, Repr

/-- `scip.SymbolRole_Definition` is the bit `0x1`; the Go test is
`occ.SymbolRoles & int32(scip.SymbolRole_Definition) != 0`. -/
def hasDefinitionRole (occ : Occurrence) : Bool :=
  occ.symbolRoles % 2 ≠ 0

/-- The effective bounds `(startLine, startChar, endLine, endChar)` computed at
the top of the loop body of `findSymbolAtPosition` (service.go:273-282):
`startLine := Range[0]`, `startChar := Range[1]`, `endLine` defaults to
`startLine`; a 3-element range sets `endChar := Range[2]`, every other length
sets `endLine := Range[2]` and `endChar := Range[3]`.  `none` models the Go
slice-bounds panic on a range with fewer elements than those reads need. -/
def occBounds (occ : Occurrence) : Option (Int × Int × Int × Int) :=
  match occ.range[0]?, occ.range[1]? with
  | some sl, some sc =>
    if occ.range.length = 3 then
      match occ.range[2]? with
      | some ec => some (sl, sc, sl, ec)
      | none => none
    else
      match occ.range[2]?, occ.range[3]? with
      | some el, some ec => some (sl, sc, el, ec)
      | _, _ => none
  | _, _ => none

/-- The containment test of `findSymbolAtPosition` (service.go:283-302):
skip when the line is outside `[startLine, endLine]`; on a one-line range
require `startChar ≤ char < endChar`; on the first line require
`char ≥ startChar`; on the last line require `char < endChar`; strictly
between the two lines the cursor is unconditionally inside. -/
def containsCursor (b : Int × Int × Int × Int) (line char : Int) : Bool :=
  let (sl, sc, el, ec) := b
  if line < sl || line > el then false
  else if sl = el then sc ≤ char && char < ec
  else if line = sl then char ≥ sc
  else if line = el then char < ec
  else true

/-- The loop of `findSymbolAtPosition` over a document's occurrence list:
first occurrence containing the cursor wins, the fallthrough returns `""`.
`none` models a panic inside the loop body. -/
def findSymbolGo (line char : Int) : List Occurrence → Option String
  | [] => some ""
  | occ :: rest =>
    match occBounds occ with
    | none => none
    | some b =>
      if containsCursor b line char then some occ.symbol
      else findSymbolGo line char rest

/-- Embeds `findSymbolAtPosition` (service.go:271-305). -/
def findSymbolAtPosition (doc : Document) (line char : Int) : Option String :=
  findSymbolGo line char doc.occurrences

/-- The response range built by `getDefinitionFromSCIP` (service.go:190-204):
the default range uses `Range[0]+1` for both lines and `Range[1]` for both
columns; a 4-element range overrides the end with `Range[2]+1`/`Range[3]`;
a 3-element range overrides the end with `Range[0]+1`/`Range[2]`; any other
length keeps the default.  `none` models the panic on ranges shorter than 2. -/
def scipRange (r : List Int) : Option Location :=
  match r[0]?, r[1]? with
  | some sl, some sc =>
    if r.length = 4 then
      match r[2]?, r[3]? with
      | some el, some ec =>
        some { startLine := sl + 1, startColumn := sc, endLine := el + 1, endColumn := ec }
      | _, _ => none
    else if r.length = 3 then
      match r[2]? with
      | some ec =>
        some { startLine := sl + 1, startColumn := sc, endLine := sl + 1, endColumn := ec }
      | none => none
    else
      some { startLine := sl + 1, startColumn := sc, endLine := sl + 1, endColumn := sc }
  | _, _ => none

/-- One entry of the SCIP definition list (service.go:186-205): kind
`"definition"`, source `"scip"`, path of the containing document. -/
def scipEntry (repoIDStr docPath : String) (loc : Location) :
    DefinitionResponse :=
  { kind := "definition", repoID := repoIDStr, filePath := docPath,
    range := loc, source := "scip" }

/-- The occurrence filter of the cross-document loop (service.go:185):
`occ.Symbol == symbol && occ.SymbolRoles & Definition != 0`. -/
def matchesDefinition (symbol : String) (occ : Occurrence) : Bool :=
  occ.symbol = symbol && hasDefinitionRole occ

/-- The inner loop of `getDefinitionFromSCIP` over one document's
occurrences, collecting entries for matching definition occurrences. -/
def collectDocDefinitions (repoIDStr symbol docPath : String) :
    List Occurrence → Option (List DefinitionResponse)
  | [] => some []
  | occ :: rest =>
    if matchesDefinition symbol occ then
      match scipRange occ.range, collectDocDefinitions repoIDStr symbol docPath rest with
      | some loc, some tail => some (scipEntry repoIDStr docPath loc :: tail)
      | _, _ => none
    else
      collectDocDefinitions repoIDStr symbol docPath rest

/-- The outer loop of `getDefinitionFromSCIP` (service.go:182-208) over the
document list, in document-then-occurrence order. -/
def collectDefsGo (symbol repoIDStr : String) :
    List Document → Option (List DefinitionResponse)
  | [] => some []
  | doc :: rest =>
    match collectDocDefinitions repoIDStr symbol doc.relativePath doc.occurrences,
        collectDefsGo symbol repoIDStr rest with
    | some here, some tail => some (here ++ tail)
    | _, _ => none

/-- The cross-document definition enumeration of `getDefinitionFromSCIP`
(service.go:182-208) over every document of the index. -/
def collectDefinitions (index : Index) (symbol repoIDStr : String) :
    Option (List DefinitionResponse) :=
  collectDefsGo symbol repoIDStr index.documents

/-- The document lookup at the top of `getDefinitionFromSCIP`
(service.go:166-172): first document whose `RelativePath` equals the
requested path. -/
def findTargetDoc (index : Index) (filePath : String) : Option Document :=
  index.documents.find? (fun doc => doc.relativePath = filePath)

/-- Embeds the body of `getDefinitionFromSCIP` after the index is in hand
(service.go:166-209, identical to `getDefinitionFromSCIPForTest`): find the
document, resolve the cursor to a symbol, enumerate definition occurrences.
The outer `Option` models the Go panic; `Except` carries the Go error. -/
def getDefinitionFromSCIPWithIndex (index : Index) (filePath : String)
    (line char : Int) (repoIDStr : String) :
    Option (Except String (List DefinitionResponse)) :=
  match findTargetDoc index filePath with
  | none => some (Except.error "doc not found")
  | some targetDoc =>
    match findSymbolAtPosition targetDoc line char with
    | none => none
    | some symbol =>
      if symbol = "" then some (Except.error "symbol not found")
      else
        match collectDefinitions index symbol repoIDStr with
        | none => none
        | some defs => some (Except.ok defs)

/-- Embeds `isWordChar` (service.go:330-332): Unicode letter, Unicode digit
or underscore (the Unicode classes are modelled by Lean's `Char` predicates). -/
def isWordChar (r : Char) : Bool :=
  r.isAlpha || r.isDigit || r = '_'

/-- The left scan of `extractWordAtPosition` (service.go:319-322): from a
word-character position, step left while the preceding rune is a word
character. -/
def scanWordStart (runes : List Char) : Nat → Nat
  | 0 => 0
  | n + 1 => if isWordChar (runes.getD n ' ') then scanWordStart runes n else n + 1

/-- The stepping of the right scan over the suffix of the line that starts
at the scan position. -/
def scanRight : Nat → List Char → Nat
  | e, [] => e
  | e, c :: rest => if isWordChar c then scanRight (e + 1) rest else e

/-- The right scan of `extractWordAtPosition` (service.go:323-326): step
right while the current rune is a word character. -/
def scanWordEnd (runes : List Char) (e : Nat) : Nat :=
  scanRight e (runes.drop e)

/-- Embeds `extractWordAtPosition` (service.go:307-328) on the rune list of
the line.  Out-of-bounds columns return `""`; a non-word rune steps back one
column when the previous rune is a word character and otherwise returns `""`;
the token is the maximal word-character run around the (possibly adjusted)
column. -/
def extractWordAtPosition (runes : List Char) (column : Int) : String :=
  if column < 0 ∨ column ≥ (runes.length : Int) then ""
  else if isWordChar (runes.getD column.toNat ' ') then
    String.mk ((runes.drop (scanWordStart runes column.toNat)).take
      (scanWordEnd runes column.toNat - scanWordStart runes column.toNat))
  else if 0 < column.toNat ∧ isWordChar (runes.getD (column.toNat - 1) ' ') then
    String.mk ((runes.drop (scanWordStart runes (column.toNat - 1))).take
      (scanWordEnd runes (column.toNat - 1) - scanWordStart runes (column.toNat - 1)))
  else ""

/-- The content-search collaborator as `getDefinitionFromSearch` sees it:
the engine-identity test `s.SearchEngine.(*search.ZoektEngine)` becomes the
flag `isZoekt`, and `SearchContent` becomes a query-indexed result function
(`Except.error` models a non-nil Go error). -/
structure Engine where
  isZoekt : Bool
  searchContent : String → Except String (List SearchResult)

/-- The line scan of `getDefinitionFromSearch` (service.go:86-94): the text
of line number `line` (0-based), or the empty line when the scan runs off the
end (or the line number is negative, which no iteration ever equals). -/
def lineAt (content : List (List Char)) (line : Int) : List Char :=
  if h : 0 ≤ line ∧ line.toNat < content.length then content.get ⟨line.toNat, h.2⟩
  else []

/-- The first query `getDefinitionFromSearch` composes (service.go:102-107):
`sym:<token>` for the Zoekt engine, `\b<token>\b` otherwise. -/
def firstQuery (isZoekt : Bool) (symbol : String) : String :=
  if isZoekt then "sym:" ++ symbol else "\\b" ++ symbol ++ "\\b"

/-- The query submission and retry logic of `getDefinitionFromSearch`
(service.go:102-117).  Returns the queries submitted, in order, together
with the `(searchResults, err)` pair left when the block ends: the first
query's outcome, replaced by the second query's outcome when the first
errored or returned no results and the engine is Zoekt. -/
def runFallbackSearch (engine : Engine) (symbol : String) :
    List String × Except String (List SearchResult) :=
  let query := firstQuery engine.isZoekt symbol
  let first := engine.searchContent query
  let retry : Bool :=
    match first with
    | Except.error _ => true
    | Except.ok rs => rs.isEmpty
  if retry && engine.isZoekt then
    let query2 := "\\b" ++ symbol ++ "\\b"
    ([query, query2], engine.searchContent query2)
  else
    ([query], first)

/-- One entry of the fallback result list (service.go:126-137): kind
`"search-result"`, source `"search"`, a zero-width range at the engine's
1-based match line. -/
def searchEntry (repoIDStr : String) (res : SearchResult) : DefinitionResponse :=
  { kind := "search-result", repoID := repoIDStr, filePath := res.path,
    range := { startLine := res.lineNum, startColumn := 0,
               endLine := res.lineNum, endColumn := 0 },
    source := "search" }

/-- The emission loop of `getDefinitionFromSearch` (service.go:125-142) with
`n` entries already appended: append an entry per result and break once the
list holds 10. -/
def buildSearchGo (repoIDStr : String) (n : Nat) :
    List SearchResult → List DefinitionResponse
  | [] => []
  | res :: rest =>
    if n + 1 ≥ 10 then [searchEntry repoIDStr res]
    else searchEntry repoIDStr res :: buildSearchGo repoIDStr (n + 1) rest

/-- The full emission loop of `getDefinitionFromSearch`, starting empty. -/
def buildSearchDefinitions (repoIDStr : String) (results : List SearchResult) :
    List DefinitionResponse :=
  buildSearchGo repoIDStr 0 results

/-- Embeds `getDefinitionFromSearch` (service.go:75-145) given the file's
content (the blob read through `CoreService.GetFileContent` is modelled as
always succeeding with `content`): extract the token under the cursor, shape
and run the engine queries, emit capped zero-width line results.  The Go
error texts are transliterated. -/
def getDefinitionFromSearch (engine : Engine) (content : List (List Char))
    (repoIDStr : String) (line char : Int) :
    Except String (List DefinitionResponse) :=
  let symbol := extractWordAtPosition (lineAt content line) char
  if symbol = "" then Except.error "no valid symbol at cursor"
  else
    match (runFallbackSearch engine symbol).2 with
    | Except.error e => Except.error e
    | Except.ok rs => Except.ok (buildSearchDefinitions repoIDStr rs)

/-- The SCIP-index environment of one repo's `scipPath`: `cached` is the
`ScipCache` entry, `onDisk` describes the index file (`none` = `os.Stat` /
`os.ReadFile` fails, `some (Except.error e)` = bytes exist but
`proto.Unmarshal` fails, `some (Except.ok index)` = the file parses). -/
structure ScipState where
  cached : Option Index
  onDisk : Option (Except String Index)
deriving Repr

/-- Embeds `getDefinitionFromSCIP` (service.go:148-209) including its cache
discipline: use the cached parsed index when present; otherwise read and
parse the file, propagating read/parse errors with the cache untouched, and
install the parsed index in the cache before querying it. -/
def getDefinitionFromSCIP (st : ScipState) (filePath : String) (line char : Int)
    (repoIDStr : String) :
    Option (Except String (List DefinitionResponse)) × ScipState :=
  match st.cached with
  | some index => (getDefinitionFromSCIPWithIndex index filePath line char repoIDStr, st)
  | none =>
    match st.onDisk with
    | none => (some (Except.error "read index file failed"), st)
    | some (Except.error e) => (some (Except.error e), st)
    | some (Except.ok index) =>
      (getDefinitionFromSCIPWithIndex index filePath line char repoIDStr,
       { st with cached := some index })

/-- Embeds `GetDefinition` (service.go:43-72) after repo resolution.  The
cache-hit branch (service.go:58-60) returns the SCIP result directly; the
cache-miss branch tries SCIP only when the index file exists and falls back
to `getDefinitionFromSearch` unless SCIP returned a non-empty list without
error.  The result pairs the response with the resulting cache state; `none`
models a panic inside the SCIP lookup. -/
def GetDefinition (st : ScipState) (engine : Engine) (content : List (List Char))
    (filePath : String) (line char : Int) (repoIDStr : String) :
    Option (Except String (List DefinitionResponse) × ScipState) :=
  if st.cached.isSome then
    match getDefinitionFromSCIP st filePath line char repoIDStr with
    | (none, _) => none
    | (some r, st2) => some (r, st2)
  else
    match st.onDisk with
    | some _ =>
      match getDefinitionFromSCIP st filePath line char repoIDStr with
      | (none, _) => none
      | (some (Except.ok defs), st2) =>
        if defs.isEmpty then
          some (getDefinitionFromSearch engine content repoIDStr line char, st2)
        else some (Except.ok defs, st2)
      | (some (Except.error _), st2) =>
        some (getDefinitionFromSearch engine content repoIDStr line char, st2)
    | none =>
      some (getDefinitionFromSearch engine content repoIDStr line char, st)

/-- Whether the cursor `(line, char)` is inside the effective range of one
occurrence: the predicate the first-match rule of cursor-to-symbol
resolution is stated with.  An occurrence whose range is too short to have
bounds matches nothing. -/
def occMatches (occ : Occurrence) (line char : Int) : Bool :=
  match occBounds occ with
  | some b => containsCursor b line char
  | none => false

/-- The largest line an occurrence's effective range can touch (`0` when the
range is too short to have bounds). -/
def occLineCap (occ : Occurrence) : Int :=
  match occBounds occ with
  | some (sl, _, el, _) => max sl el
  | none => 0

/-- An upper bound on the lines touched by any occurrence of the list. -/
def lineCap (occs : List Occurrence) : Int :=
  occs.foldr (fun o m => max (occLineCap o) m) 0

/-! ### Concrete fixtures

Small concrete indexes, engines and file contents used to witness the
theorems below.  `occA`/`docA`/`idxA` replay the index of the repository's
own unit test `TestGetDefinitionFromSCIP_LineNumberMapping_SingleLine`. -/

def occA : Occurrence := { symbol := "symA", range := [0, 1, 5], symbolRoles := 1 }

def docA : Document := { relativePath := "a.go", occurrences := [occA] }

def idxA : Index := { documents := [docA] }

/-- The response entry the SCIP path produces for `occA`. -/
def respA : DefinitionResponse :=
  { kind := "definition", repoID := "1", filePath := "a.go",
    range := { startLine := 1, startColumn := 1, endLine := 1, endColumn := 5 },
    source := "scip" }

/-- A non-Zoekt engine that always finds one match at line 3 of `d.go`. -/
def engRipgrep : Engine :=
  { isZoekt := false, searchContent := fun _ => Except.ok [{ path := "d.go", lineNum := 3 }] }

/-- A Zoekt engine that never finds anything. -/
def engZoektEmpty : Engine :=
  { isZoekt := true, searchContent := fun _ => Except.ok [] }

/-- A one-line file whose line 0 is `abc`. -/
def contentABC : List (List Char) := [['a', 'b', 'c']]

/-- The single fallback entry `engRipgrep` leads to. -/
def respSearch : DefinitionResponse :=
  { kind := "search-result", repoID := "1", filePath := "d.go",
    range := { startLine := 3, startColumn := 0, endLine := 3, endColumn := 0 },
    source := "search" }

/-- An occurrence whose `Range` has only 2 elements (malformed). -/
def occBad : Occurrence := { symbol := "bad", range := [0, 0], symbolRoles := 0 }

/-- A document holding only the malformed occurrence. -/
def docBad : Document := { relativePath := "bad.go", occurrences := [occBad] }

/-! ### Helper lemmas -/

theorem scipRange_four (sl sc el ec : Int) :
    scipRange [sl, sc, el, ec] =
      some { startLine := sl + 1, startColumn := sc, endLine := el + 1, endColumn := ec } :=
  rfl

theorem scipRange_three (sl sc ec : Int) :
    scipRange [sl, sc, ec] =
      some { startLine := sl + 1, startColumn := sc, endLine := sl + 1, endColumn := ec } :=
  rfl

theorem mem_collectDocDefinitions {rid sym docPath : String} {occs : List Occurrence}
    {resps : List DefinitionResponse} {resp : DefinitionResponse}
    (h : collectDocDefinitions rid sym docPath occs = some resps) (hmem : resp ∈ resps) :
    ∃ occ ∈ occs, matchesDefinition sym occ = true ∧
      ∃ loc, scipRange occ.range = some loc ∧ resp = scipEntry rid docPath loc := by
  induction occs generalizing resps with
  | nil =>
    obtain rfl : ([] : List DefinitionResponse) = resps := Option.some.inj h
    cases hmem
  | cons occ rest ih =>
    rw [collectDocDefinitions] at h
    split at h
    · split at h
      next loc tail hloc htail =>
        obtain rfl := Option.some.inj h
        rcases List.mem_cons.mp hmem with heq | hmem2
        · exact ⟨occ, List.mem_cons_self _ _, by assumption, loc, hloc, heq⟩
        · obtain ⟨o, ho, hmo, l, hl, he⟩ := ih htail hmem2
          exact ⟨o, List.mem_cons_of_mem _ ho, hmo, l, hl, he⟩
      next => cases h
    · obtain ⟨o, ho, hmo, l, hl, he⟩ := ih h hmem
      exact ⟨o, List.mem_cons_of_mem _ ho, hmo, l, hl, he⟩

theorem mem_collectDefsGo {sym rid : String} {docs : List Document}
    {resps : List DefinitionResponse} {resp : DefinitionResponse}
    (h : collectDefsGo sym rid docs = some resps) (hmem : resp ∈ resps) :
    ∃ doc ∈ docs, ∃ occ ∈ doc.occurrences, matchesDefinition sym occ = true ∧
      ∃ loc, scipRange occ.range = some loc ∧ resp = scipEntry rid doc.relativePath loc := by
  induction docs generalizing resps with
  | nil =>
    obtain rfl : ([] : List DefinitionResponse) = resps := Option.some.inj h
    cases hmem
  | cons doc rest ih =>
    rw [collectDefsGo] at h
    split at h
    next here tail hhere htail =>
      obtain rfl := Option.some.inj h
      rcases List.mem_append.mp hmem with hm1 | hm2
      · obtain ⟨o, ho, hmo, l, hl, he⟩ := mem_collectDocDefinitions hhere hm1
        exact ⟨doc, List.mem_cons_self _ _, o, ho, hmo, l, hl, he⟩
      · obtain ⟨d, hd, o, ho, hmo, l, hl, he⟩ := ih htail hm2
        exact ⟨d, List.mem_cons_of_mem _ hd, o, ho, hmo, l, hl, he⟩
    next => cases h

/-! ### Claim C1 -/

/-- C1: every entry the SCIP path of the definition lookup returns has
`source = "scip"`, and its response range is the producer range shifted by
one on lines only: a 4-element range `[sl, sc, el, ec]` maps to
`(sl+1, sc, el+1, ec)`, a 3-element range `[sl, sc, ec]` maps to
`(sl+1, sc, sl+1, ec)`; columns are never shifted. -/
theorem scip_entry_range_mapping (index : Index) (filePath : String)
    (line char : Int) (rid : String) (defs : List DefinitionResponse)
    (resp : DefinitionResponse)
    (hrun : getDefinitionFromSCIPWithIndex index filePath line char rid =
      some (Except.ok defs))
    (hmem : resp ∈ defs) :
    resp.source = "scip" ∧
    ∃ occ : Occurrence, (∃ doc ∈ index.documents, occ ∈ doc.occurrences) ∧
      (∀ sl sc el ec : Int, occ.range = [sl, sc, el, ec] →
        resp.range = { startLine := sl + 1, startColumn := sc,
                       endLine := el + 1, endColumn := ec }) ∧
      (∀ sl sc ec : Int, occ.range = [sl, sc, ec] →
        resp.range = { startLine := sl + 1, startColumn := sc,
                       endLine := sl + 1, endColumn := ec }) := by
  unfold getDefinitionFromSCIPWithIndex at hrun
  split at hrun
  · cases hrun
  next targetDoc hdoc =>
    split at hrun
    · cases hrun
    next symbol hsym =>
      split at hrun
      · cases hrun
      · split at hrun
        · cases hrun
        next ds hcol =>
          obtain rfl : ds = defs := by
            have := Option.some.inj hrun
            exact Except.ok.inj this
          obtain ⟨doc, hd, occ, ho, hmo, loc, hl, he⟩ :=
            mem_collectDefsGo hcol hmem
          subst he
          refine ⟨rfl, occ, ⟨doc, hd, ho⟩, ?_, ?_⟩
          · intro sl sc el ec hr
            rw [hr, scipRange_four] at hl
            simp only [Option.some.injEq] at hl
            simp [scipEntry, hl]
          · intro sl sc ec hr
            rw [hr, scipRange_three] at hl
            simp only [Option.some.injEq] at hl
            simp [scipEntry, hl]

/-- C1 witness: the single-line index of the repository's own unit test. -/
theorem scip_entry_range_mapping_witness :
    getDefinitionFromSCIPWithIndex idxA "a.go" 0 2 "1" = some (Except.ok [respA]) ∧
    respA.source = "scip" := by
  refine ⟨rfl, ?_⟩
  exact (scip_entry_range_mapping idxA "a.go" 0 2 "1" [respA] respA rfl
    (List.mem_singleton.mpr rfl)).1

/-! ### Claim C2 -/

theorem findSymbolGo_first_match (line char : Int) (occs : List Occurrence)
    (hwf : ∀ occ ∈ occs, (occBounds occ).isSome) :
    findSymbolGo line char occs =
      some (((occs.find? (fun occ => occMatches occ line char)).map
        Occurrence.symbol).getD "") := by
  induction occs with
  | nil => rfl
  | cons occ rest ih =>
    obtain ⟨b, hb⟩ := Option.isSome_iff_exists.mp (hwf occ (List.mem_cons_self _ _))
    have hrest : ∀ o ∈ rest, (occBounds o).isSome :=
      fun o ho => hwf o (List.mem_cons_of_mem _ ho)
    by_cases hm : occMatches occ line char = true
    · have hc : containsCursor b line char = true := by
        unfold occMatches at hm
        rw [hb] at hm
        exact hm
      rw [@List.find?_cons_of_pos _ (fun o => occMatches o line char) occ rest hm]
      simp [findSymbolGo, hb, hc]
    · have hm2 : occMatches occ line char = false := Bool.eq_false_iff.mpr hm
      have hc : containsCursor b line char = false := by
        unfold occMatches at hm2
        rw [hb] at hm2
        exact hm2
      rw [@List.find?_cons_of_neg _ (fun o => occMatches o line char) occ rest hm]
      simp [findSymbolGo, hb, hc, ih hrest]

/-- C2: on a document whose occurrence ranges are long enough to have
bounds, cursor-to-symbol resolution returns the symbol of the first
occurrence, in insertion order, whose effective range (3-tuples expanded to
`endLine = startLine`, `endCol = range[2]`) contains the cursor under the
containment rules, and the empty result when no occurrence matches. -/
theorem findSymbolAtPosition_first_match (doc : Document) (line char : Int)
    (hwf : ∀ occ ∈ doc.occurrences, (occBounds occ).isSome) :
    findSymbolAtPosition doc line char =
      some (((doc.occurrences.find? (fun occ => occMatches occ line char)).map
        Occurrence.symbol).getD "") :=
  findSymbolGo_first_match line char doc.occurrences hwf

/-- C2 witness: on the unit-test document the cursor `(0, 2)` resolves to
the first (only) occurrence. -/
theorem findSymbolAtPosition_first_match_witness :
    findSymbolAtPosition docA 0 2 =
      some (((docA.occurrences.find? (fun occ => occMatches occ 0 2)).map
        Occurrence.symbol).getD "") :=
  findSymbolAtPosition_first_match docA 0 2 (by decide)

/-! ### Claim C10 -/

theorem occBounds_isSome_of_length (occ : Occurrence)
    (h : occ.range.length = 3 ∨ 4 ≤ occ.range.length) : (occBounds occ).isSome := by
  rcases h with h3 | h4
  · obtain ⟨a, b, c, hr⟩ := List.length_eq_three.mp h3
    simp [occBounds, hr]
  · rcases hr : occ.range with _ | ⟨a, _ | ⟨b, _ | ⟨c, _ | ⟨d, t⟩⟩⟩⟩ <;>
      rw [hr] at h4 <;> simp only [List.length_cons, List.length_nil] at h4
    · omega
    · omega
    · omega
    · omega
    · have hlen : ¬((a :: b :: c :: d :: t).length = 3) := by
        simp only [List.length_cons]
        omega
      simp [occBounds, hr, hlen]

theorem occBounds_eq_none_of_short (occ : Occurrence)
    (h : occ.range.length < 3) : occBounds occ = none := by
  rcases hr : occ.range with _ | ⟨a, _ | ⟨b, _ | ⟨c, t⟩⟩⟩
  · simp [occBounds, hr]
  · simp [occBounds, hr]
  · simp [occBounds, hr]
  · rw [hr] at h
    simp only [List.length_cons] at h
    omega

theorem containsCursor_skip (sl sc el ec line char : Int) (h : el < line) :
    containsCursor (sl, sc, el, ec) line char = false := by
  simp [containsCursor, h]

theorem occLineCap_le_lineCap {occ : Occurrence} {occs : List Occurrence}
    (h : occ ∈ occs) : occLineCap occ ≤ lineCap occs := by
  induction occs with
  | nil => cases h
  | cons o rest ih =>
    rcases List.mem_cons.mp h with rfl | h2
    · exact le_max_left _ _
    · exact le_trans (ih h2) (le_max_right _ _)

theorem findSymbolGo_isSome (line char : Int) (occs : List Occurrence)
    (hwf : ∀ occ ∈ occs, occ.range.length = 3 ∨ 4 ≤ occ.range.length) :
    (findSymbolGo line char occs).isSome := by
  induction occs with
  | nil => simp [findSymbolGo]
  | cons occ rest ih =>
    obtain ⟨b, hb⟩ := Option.isSome_iff_exists.mp
      (occBounds_isSome_of_length occ (hwf occ (List.mem_cons_self _ _)))
    by_cases hc : containsCursor b line char = true
    · simp [findSymbolGo, hb, hc]
    · have hc2 : containsCursor b line char = false := Bool.eq_false_iff.mpr hc
      simp [findSymbolGo, hb, hc2, ih fun o ho => hwf o (List.mem_cons_of_mem _ ho)]

theorem findSymbolGo_none_of_short (line char : Int) :
    ∀ occs : List Occurrence, (∃ occ ∈ occs, occ.range.length < 3) →
      lineCap occs < line → findSymbolGo line char occs = none := by
  intro occs
  induction occs with
  | nil =>
    intro h _
    obtain ⟨occ, hm, _⟩ := h
    cases hm
  | cons occ rest ih =>
    intro hshort hline
    cases hb : occBounds occ with
    | none => simp [findSymbolGo, hb]
    | some b =>
      obtain ⟨sl, sc, el, ec⟩ := b
      have hcap : occLineCap occ ≤ lineCap (occ :: rest) :=
        occLineCap_le_lineCap (List.mem_cons_self _ _)
      have hcap2 : occLineCap occ = max sl el := by simp [occLineCap, hb]
      have hel : el < line :=
        lt_of_le_of_lt (le_trans (le_max_right sl el) (hcap2 ▸ hcap)) hline
      have hcc : containsCursor (sl, sc, el, ec) line char = false :=
        containsCursor_skip sl sc el ec line char hel
      have hshort2 : ∃ o ∈ rest, o.range.length < 3 := by
        obtain ⟨o, ho, hlen⟩ := hshort
        rcases List.mem_cons.mp ho with rfl | h2
        · rw [occBounds_eq_none_of_short _ hlen] at hb
          cases hb
        · exact ⟨o, h2, hlen⟩
      have hline2 : lineCap rest < line :=
        lt_of_le_of_lt (le_max_right (occLineCap occ) (lineCap rest)) hline
      simp [findSymbolGo, hb, hcc, ih hshort2 hline2]

/-- C10: cursor-to-symbol resolution is total on documents all of whose
occurrence ranges have exactly 3 or at least 4 elements; on a document
containing an occurrence whose range has fewer than 3 elements some cursor
makes the lookup panic (the `none` of the model) instead of returning an
error or the empty result. -/
theorem findSymbolAtPosition_totality :
    (∀ doc : Document,
      (∀ occ ∈ doc.occurrences, occ.range.length = 3 ∨ 4 ≤ occ.range.length) →
      ∀ line char : Int, (findSymbolAtPosition doc line char).isSome) ∧
    (∀ doc : Document, (∃ occ ∈ doc.occurrences, occ.range.length < 3) →
      ∃ line char : Int, findSymbolAtPosition doc line char = none) := by
  constructor
  · intro doc h line char
    exact findSymbolGo_isSome line char doc.occurrences h
  · intro doc h
    exact ⟨lineCap doc.occurrences + 1, 0,
      findSymbolGo_none_of_short (lineCap doc.occurrences + 1) 0 doc.occurrences h
        (lt_add_one _)⟩

/-- C10 witness: the well-formed test document resolves without panic, and
the document with a 2-element range panics at some cursor. -/
theorem findSymbolAtPosition_totality_witness :
    (findSymbolAtPosition docA 0 2).isSome ∧
    ∃ line char : Int, findSymbolAtPosition docBad line char = none :=
  ⟨findSymbolAtPosition_totality.1 docA (by decide) 0 2,
   findSymbolAtPosition_totality.2 docBad ⟨occBad, by decide, by decide⟩⟩

/-! ### Claim C5 -/

theorem buildSearchGo_eq (rid : String) :
    ∀ (results : List SearchResult) (n : Nat), n < 10 →
      buildSearchGo rid n results = (results.take (10 - n)).map (searchEntry rid) := by
  intro results
  induction results with
  | nil =>
    intro n _
    simp [buildSearchGo]
  | cons res rest ih =>
    intro n hn
    by_cases h : n + 1 ≥ 10
    · have hn9 : n = 9 := by omega
      subst hn9
      simp [buildSearchGo]
    · have h10 : 10 - n = (10 - (n + 1)) + 1 := by omega
      simp [buildSearchGo, h, h10, ih (n + 1) (by omega)]

/-- C5: the fallback emission equals the first ten engine results, in engine
order, each mapped to an entry with a zero-width range at the engine's match
line; in particular at most 10 entries are emitted, every range has
`startLine = endLine = lineNum` and both columns `0`, and every entry's
source is `"search"`. -/
theorem fallback_output_shape (rid : String) (results : List SearchResult) :
    buildSearchDefinitions rid results = (results.take 10).map (searchEntry rid) ∧
    (buildSearchDefinitions rid results).length ≤ 10 ∧
    (buildSearchDefinitions rid results).map (fun resp => resp.range) =
      (results.take 10).map (fun r =>
        { startLine := r.lineNum, startColumn := 0,
          endLine := r.lineNum, endColumn := 0 : Location }) ∧
    (buildSearchDefinitions rid results).all (fun resp => resp.source == "search") := by
  have h := buildSearchGo_eq rid results 0 (by omega)
  have h0 : buildSearchDefinitions rid results = (results.take 10).map (searchEntry rid) := by
    simpa [buildSearchDefinitions] using h
  refine ⟨h0, ?_, ?_, ?_⟩
  · rw [h0, List.length_map, List.length_take]
    exact min_le_left _ _
  · rw [h0, List.map_map]
    rfl
  · rw [h0, List.all_eq_true]
    intro resp hmem
    obtain ⟨r, hr, rfl⟩ := List.mem_map.mp hmem
    rfl

/-! ### Claim C3 -/

/-- C3 is violated by the code: the fallback path emits entries whose kind
is `"search-result"`, which is neither `"definition"` nor `"reference"`,
contradicting the repository's own API documentation. -/
theorem fallback_kind_not_definition_or_reference :
    (buildSearchDefinitions "1" [{ path := "d.go", lineNum := 3 }]).map
      (fun resp => resp.kind) = ["search-result"] ∧
    ¬("search-result" = "definition" ∨ "search-result" = "reference") := by
  exact ⟨rfl, by decide⟩

/-! ### Claim C7 -/

/-- C7: query shaping of the fallback.  For a Zoekt engine the first
submitted query is `sym:<token>`; when it returns zero results the queries
are exactly `sym:<token>` then `\b<token>\b` and the outcome is the second
query's; when it returns a non-empty result no second query is submitted.
For a non-Zoekt engine the only query is `\b<token>\b`. -/
theorem fallback_query_shaping (engine : Engine) (symbol : String) :
    (engine.isZoekt = true →
      ((runFallbackSearch engine symbol).1.head? = some ("sym:" ++ symbol)) ∧
      (∀ rs, engine.searchContent ("sym:" ++ symbol) = Except.ok rs → rs = [] →
        (runFallbackSearch engine symbol).1 =
          ["sym:" ++ symbol, "\\b" ++ symbol ++ "\\b"] ∧
        (runFallbackSearch engine symbol).2 =
          engine.searchContent ("\\b" ++ symbol ++ "\\b")) ∧
      (∀ rs, engine.searchContent ("sym:" ++ symbol) = Except.ok rs → rs ≠ [] →
        (runFallbackSearch engine symbol).1 = ["sym:" ++ symbol] ∧
        (runFallbackSearch engine symbol).2 = Except.ok rs)) ∧
    (engine.isZoekt = false →
      (runFallbackSearch engine symbol).1 = ["\\b" ++ symbol ++ "\\b"] ∧
      (runFallbackSearch engine symbol).2 =
        engine.searchContent ("\\b" ++ symbol ++ "\\b")) := by
  constructor
  · intro hz
    refine ⟨?_, ?_, ?_⟩
    · unfold runFallbackSearch firstQuery
      rw [hz]
      cases hres : engine.searchContent ("sym:" ++ symbol) with
      | error e => simp [hres, hz]
      | ok rs =>
        by_cases hempty : rs.isEmpty
        · simp [hres, hz, hempty]
        · simp [hres, hz, hempty]
    · intro rs hok hnil
      subst hnil
      unfold runFallbackSearch firstQuery
      rw [hz]
      simp [hok, hz]
    · intro rs hok hne
      unfold runFallbackSearch firstQuery
      rw [hz]
      have : rs.isEmpty = false := by
        cases rs with
        | nil => exact absurd rfl hne
        | cons a t => rfl
      simp [hok, hz, this]
  · intro hz
    unfold runFallbackSearch firstQuery
    rw [hz]
    simp

/-- C7 witness: the empty Zoekt engine submits both queries; the non-Zoekt
engine submits the whole-word regex only. -/
theorem fallback_query_shaping_witness :
    (runFallbackSearch engZoektEmpty "foo").1 =
      ["sym:" ++ "foo", "\\b" ++ "foo" ++ "\\b"] ∧
    (runFallbackSearch engRipgrep "foo").1 = ["\\b" ++ "foo" ++ "\\b"] :=
  ⟨(((fallback_query_shaping engZoektEmpty "foo").1 rfl).2.1 [] rfl rfl).1,
   ((fallback_query_shaping engRipgrep "foo").2 rfl).1⟩

/-! ### Claim C6 -/

/-- C6 fails on the code as stated: on the line `abc` the cursor at column 3
(one past the end of the line) yields the empty result, not `"abc"`, because
the bounds check precedes the step-back rule. -/
theorem wordAt_past_line_end_empty :
    extractWordAtPosition "abc".toList 3 = "" ∧
    ¬(extractWordAtPosition "abc".toList 3 = "abc") :=
  ⟨rfl, by decide⟩

theorem scanWordStart_eq_start (runes : List Char) (s : Nat)
    (hleft : s = 0 ∨ isWordChar (runes.getD (s - 1) ' ') = false) :
    ∀ c : Nat, s ≤ c →
      (∀ i, s ≤ i → i < c → isWordChar (runes.getD i ' ') = true) →
      scanWordStart runes c = s := by
  intro c
  induction c with
  | zero =>
    intro hs _
    exact (Nat.le_zero.mp hs).symm ▸ rfl
  | succ n ih =>
    intro hs hword
    by_cases hsn : s ≤ n
    · have hw : isWordChar (runes.getD n ' ') = true := hword n hsn (Nat.lt_succ_self n)
      rw [scanWordStart, if_pos hw]
      exact ih hsn fun i h1 h2 => hword i h1 (Nat.lt_succ_of_lt h2)
    · have hseq : s = n + 1 := by omega
      subst hseq
      rcases hleft with h0 | hw
      · omega
      · rw [scanWordStart, if_neg]
        simp only [Nat.add_sub_cancel] at hw
        simp only [List.getD_eq_getElem?_getD] at hw
        simp [hw]

theorem scanWordEnd_eq_end (runes : List Char) (e : Nat) (he : e ≤ runes.length)
    (hright : e = runes.length ∨ isWordChar (runes.getD e ' ') = false) :
    ∀ (k c : Nat), e - c = k → c ≤ e →
      (∀ i, c ≤ i → i < e → isWordChar (runes.getD i ' ') = true) →
      scanWordEnd runes c = e := by
  intro k
  induction k with
  | zero =>
    intro c hk hc _
    have hce : c = e := by omega
    subst hce
    unfold scanWordEnd
    by_cases hel : c < runes.length
    · have hw : isWordChar (runes.getD c ' ') = false := by
        rcases hright with h0 | hw
        · omega
        · exact hw
      have hwg : isWordChar (runes.get ⟨c, hel⟩) = false := by
        rwa [List.getD_eq_getElem?_getD, List.getElem?_eq_getElem hel] at hw
      rw [List.get_eq_getElem] at hwg
      rw [List.drop_eq_getElem_cons hel, scanRight, if_neg]
      simp [hwg]
    · have hlen : c = runes.length := by omega
      rw [hlen, List.drop_length]
      rfl
  | succ n ih =>
    intro c hk hc hword
    have hce : c < e := by omega
    have hcl : c < runes.length := lt_of_lt_of_le hce he
    have hw : isWordChar (runes.getD c ' ') = true := hword c (le_refl c) hce
    have hwg : isWordChar (runes.get ⟨c, hcl⟩) = true := by
      rwa [List.getD_eq_getElem?_getD, List.getElem?_eq_getElem hcl] at hw
    rw [List.get_eq_getElem] at hwg
    unfold scanWordEnd
    rw [List.drop_eq_getElem_cons hcl, scanRight, if_pos hwg]
    exact ih (c + 1) (by omega) (by omega)
      fun i h1 h2 => hword i (le_of_lt (Nat.lt_of_lt_of_le (Nat.lt_succ_self c) h1)) h2

/-- C6 amended: inside the line, the extractor returns the same token for
every column inside a maximal word-character run and for the column
immediately after it; a column one past the end of the line returns the
empty result (see the counterexample), as does a column on a non-word code
point whose preceding code point is not a word character. -/
theorem wordAt_token_stability :
    (∀ (runes : List Char) (s e c : Nat),
      s < e → e ≤ runes.length →
      (∀ i, s ≤ i → i < e → isWordChar (runes.getD i ' ') = true) →
      (s = 0 ∨ isWordChar (runes.getD (s - 1) ' ') = false) →
      (e = runes.length ∨ isWordChar (runes.getD e ' ') = false) →
      s ≤ c → c ≤ e → c < runes.length →
      extractWordAtPosition runes (c : Int) =
        String.mk ((runes.drop s).take (e - s))) ∧
    (∀ (runes : List Char) (c : Nat), c < runes.length →
      isWordChar (runes.getD c ' ') = false →
      (c = 0 ∨ isWordChar (runes.getD (c - 1) ' ') = false) →
      extractWordAtPosition runes (c : Int) = "") := by
  constructor
  · intro runes s e c hse he hword hleft hright hsc hce hcl
    have hneg : ¬((c : Int) < 0 ∨ (c : Int) ≥ (runes.length : Int)) := by
      push_neg
      constructor
      · exact Int.natCast_nonneg c
      · exact_mod_cast hcl
    rw [extractWordAtPosition, if_neg hneg]
    have htn : (c : Int).toNat = c := Int.toNat_natCast c
    rcases Nat.lt_or_ge c e with hlt | hge
    · have hw : isWordChar (runes.getD c ' ') = true := hword c hsc hlt
      rw [htn, if_pos hw, scanWordStart_eq_start runes s hleft c hsc
          (fun i h1 h2 => hword i h1 (lt_trans h2 hlt)),
        scanWordEnd_eq_end runes e he hright (e - c) c rfl (le_of_lt hlt)
          (fun i h1 h2 => hword i (le_trans hsc h1) h2)]
    · have hceq : c = e := by omega
      subst hceq
      have hw : isWordChar (runes.getD c ' ') = false := by
        rcases hright with h0 | hw
        · omega
        · exact hw
      rw [htn, if_neg (by simp only [List.getD_eq_getElem?_getD] at hw; simp [hw])]
      have hc0 : 0 < c := by omega
      have hwp : isWordChar (runes.getD (c - 1) ' ') = true :=
        hword (c - 1) (by omega) (by omega)
      rw [if_pos ⟨hc0, hwp⟩, scanWordStart_eq_start runes s hleft (c - 1) (by omega)
          (fun i h1 h2 => hword i h1 (by omega)),
        scanWordEnd_eq_end runes c he hright (c - (c - 1)) (c - 1) rfl (by omega)
          (fun i h1 h2 => hword i (by omega) h2)]
  · intro runes c hcl hw hprev
    have hneg : ¬((c : Int) < 0 ∨ (c : Int) ≥ (runes.length : Int)) := by
      push_neg
      constructor
      · exact Int.natCast_nonneg c
      · exact_mod_cast hcl
    rw [extractWordAtPosition, if_neg hneg]
    have htn : (c : Int).toNat = c := Int.toNat_natCast c
    rw [htn, if_neg (by simp only [List.getD_eq_getElem?_getD] at hw; simp [hw]), if_neg]
    intro hcontra
    rcases hprev with h0 | hp
    · omega
    · rw [hp] at hcontra
      exact Bool.false_ne_true hcontra.2

/-- C6 amended witness: on `abc def` every column 0..3 yields `abc`, and
column 0 of ` x` yields the empty result. -/
theorem wordAt_token_stability_witness :
    extractWordAtPosition "abc def".toList 3 =
      String.mk (("abc def".toList.drop 0).take 3) ∧
    extractWordAtPosition " x".toList 0 = "" :=
  ⟨wordAt_token_stability.1 "abc def".toList 0 3 3 (by decide) (by decide)
      (fun i h1 h2 => by interval_cases i <;> decide)
      (Or.inl rfl) (Or.inr (by decide)) (by decide) (by decide) (by decide),
   wordAt_token_stability.2 " x".toList 0 (by decide) (by decide) (Or.inl rfl)⟩

/-! ### Claim C4 -/

/-- C4 fails on the code as stated: when the parsed index is already in the
cache and the requested document is absent from it, `GetDefinition` returns
the error instead of falling back, while the same request with no index at
all succeeds through the search fallback. -/
theorem cached_index_skips_fallback_counterexample :
    GetDefinition { cached := some idxA, onDisk := some (Except.ok idxA) } engRipgrep
      contentABC "missing.go" 0 0 "1" =
      some (Except.error "doc not found",
        { cached := some idxA, onDisk := some (Except.ok idxA) }) ∧
    GetDefinition { cached := none, onDisk := none } engRipgrep
      contentABC "missing.go" 0 0 "1" =
      some (Except.ok [respSearch], { cached := none, onDisk := none }) :=
  ⟨rfl, rfl⟩

/-- C4 amended: when the index was *not* already cached, a request whose
document is missing from the index or whose cursor matches no occurrence
proceeds exactly as the search fallback (the parsed index being installed in
the cache); when the parsed index was already cached, the error surfaces
instead (see the counterexample). -/
theorem fallback_on_document_missing_uncached (st : ScipState) (engine : Engine)
    (content : List (List Char)) (filePath : String) (line char : Int)
    (rid : String) (index : Index)
    (hcache : st.cached = none) (hdisk : st.onDisk = some (Except.ok index))
    (hmiss : findTargetDoc index filePath = none ∨
      ∃ doc, findTargetDoc index filePath = some doc ∧
        findSymbolAtPosition doc line char = some "") :
    GetDefinition st engine content filePath line char rid =
      some (getDefinitionFromSearch engine content rid line char,
        { st with cached := some index }) := by
  rcases hmiss with hnone | ⟨doc, hdoc, hsym⟩
  · simp [GetDefinition, getDefinitionFromSCIP, getDefinitionFromSCIPWithIndex,
      hcache, hdisk, hnone]
  · simp [GetDefinition, getDefinitionFromSCIP, getDefinitionFromSCIPWithIndex,
      hcache, hdisk, hdoc, hsym]

/-- C4 amended witness: uncached index without the requested document. -/
theorem fallback_on_document_missing_uncached_witness :
    GetDefinition { cached := none, onDisk := some (Except.ok idxA) } engRipgrep
      contentABC "missing.go" 0 0 "1" =
      some (getDefinitionFromSearch engRipgrep contentABC "1" 0 0,
        { cached := some idxA, onDisk := some (Except.ok idxA) }) :=
  fallback_on_document_missing_uncached
    { cached := none, onDisk := some (Except.ok idxA) } engRipgrep contentABC
    "missing.go" 0 0 "1" idxA rfl rfl (Or.inl rfl)

/-! ### Claim C9 -/

/-- C9 fails on the code as stated: an index file that exists but fails to
deserialize does not surface an error — the lookup silently falls back to
content search and succeeds. -/
theorem corrupt_index_falls_back_counterexample :
    GetDefinition { cached := none, onDisk := some (Except.error "unmarshal failed") }
      engRipgrep contentABC "a.go" 0 0 "1" =
      some (Except.ok [respSearch],
        { cached := none, onDisk := some (Except.error "unmarshal failed") }) :=
  rfl

/-- C9 amended: when the index file exists but its bytes fail to
deserialize (and nothing is cached), the lookup proceeds exactly as the
search fallback, and the failed index is not installed in the cache (the
state is unchanged). -/
theorem corrupt_index_falls_back (st : ScipState) (engine : Engine)
    (content : List (List Char)) (filePath : String) (line char : Int)
    (rid e : String)
    (hcache : st.cached = none) (hdisk : st.onDisk = some (Except.error e)) :
    GetDefinition st engine content filePath line char rid =
      some (getDefinitionFromSearch engine content rid line char, st) := by
  simp [GetDefinition, getDefinitionFromSCIP, hcache, hdisk]

/-- C9 amended witness. -/
theorem corrupt_index_falls_back_witness :
    GetDefinition { cached := none, onDisk := some (Except.error "unmarshal failed") }
      engRipgrep contentABC "a.go" 0 0 "1" =
      some (getDefinitionFromSearch engRipgrep contentABC "1" 0 0,
        { cached := none, onDisk := some (Except.error "unmarshal failed") }) :=
  corrupt_index_falls_back
    { cached := none, onDisk := some (Except.error "unmarshal failed") }
    engRipgrep contentABC "a.go" 0 0 "1" "unmarshal failed" rfl rfl

/-! ### Claim C8 -/

/-- C8 fails on the code as stated: the location the definition enumeration
emits for the test occurrence has 1-based `startLine = 1`, while
cursor-to-symbol resolution expects 0-based lines, so feeding the location's
start position back yields the empty symbol, not `symA`. -/
theorem roundtrip_counterexample :
    collectDefinitions idxA "symA" "1" = some [respA] ∧
    findSymbolAtPosition docA respA.range.startLine respA.range.startColumn = some "" ∧
    ¬(findSymbolAtPosition docA respA.range.startLine respA.range.startColumn =
        some "symA") :=
  ⟨rfl, rfl, by decide⟩

theorem occBounds_of_three (occ : Occurrence) (sl sc ec : Int)
    (h : occ.range = [sl, sc, ec]) : occBounds occ = some (sl, sc, sl, ec) := by
  simp [occBounds, h]

theorem occBounds_of_four (occ : Occurrence) (sl sc el ec : Int)
    (h : occ.range = [sl, sc, el, ec]) : occBounds occ = some (sl, sc, el, ec) := by
  simp [occBounds, h]

theorem findSymbolGo_skip_prefix (line char : Int) (pre : List Occurrence)
    (hpre : ∀ o ∈ pre, ∃ b, occBounds o = some b ∧ containsCursor b line char = false) :
    ∀ tail, findSymbolGo line char (pre ++ tail) = findSymbolGo line char tail := by
  induction pre with
  | nil => intro tail; rfl
  | cons p rest ih =>
    intro tail
    obtain ⟨b, hb, hc⟩ := hpre p (List.mem_cons_self _ _)
    simp only [List.cons_append, findSymbolGo, hb, hc]
    exact ih (fun o ho => hpre o (List.mem_cons_of_mem _ ho)) tail

/-- C8 amended: for a definition occurrence whose effective range contains
its own start `(sl, sc)` and that is not shadowed by an earlier occurrence
of its document at that position, the emitted location has start
`(sl + 1, sc)`, and feeding `(startLine - 1, startColumn)` — not the raw
1-based start — back into cursor-to-symbol resolution recovers the
occurrence's symbol. -/
theorem roundtrip_shifted (doc : Document) (sym : String)
    (pre post : List Occurrence) (occ : Occurrence) (sl sc el ec : Int)
    (hocc : doc.occurrences = pre ++ occ :: post)
    (hsym : occ.symbol = sym)
    (hrole : hasDefinitionRole occ = true)
    (hshape : (occ.range = [sl, sc, ec] ∧ el = sl) ∨ occ.range = [sl, sc, el, ec])
    (hstart : containsCursor (sl, sc, el, ec) sl sc = true)
    (hpre : ∀ o ∈ pre, ∃ b, occBounds o = some b ∧ containsCursor b sl sc = false) :
    matchesDefinition sym occ = true ∧
    ∃ loc, scipRange occ.range = some loc ∧
      loc.startLine = sl + 1 ∧ loc.startColumn = sc ∧
      findSymbolAtPosition doc (loc.startLine - 1) loc.startColumn = some sym := by
  refine ⟨by simp [matchesDefinition, hsym, hrole], ?_⟩
  have hb : occBounds occ = some (sl, sc, el, ec) := by
    rcases hshape with ⟨h3, hel⟩ | h4
    · rw [hel]
      exact occBounds_of_three occ sl sc ec h3
    · exact occBounds_of_four occ sl sc el ec h4
  have hfind : findSymbolAtPosition doc sl sc = some sym := by
    rw [findSymbolAtPosition, hocc, findSymbolGo_skip_prefix sl sc pre hpre]
    simp [findSymbolGo, hb, hstart, hsym]
  rcases hshape with ⟨h3, _⟩ | h4
  · have hsr : scipRange occ.range =
        some { startLine := sl + 1, startColumn := sc,
               endLine := sl + 1, endColumn := ec } := by
      rw [h3]
      exact scipRange_three sl sc ec
    refine ⟨_, hsr, rfl, rfl, ?_⟩
    simpa using hfind
  · have hsr : scipRange occ.range =
        some { startLine := sl + 1, startColumn := sc,
               endLine := el + 1, endColumn := ec } := by
      rw [h4]
      exact scipRange_four sl sc el ec
    refine ⟨_, hsr, rfl, rfl, ?_⟩
    simpa using hfind

/-- C8 amended witness: the unit-test occurrence round-trips through the
0-based shift. -/
theorem roundtrip_shifted_witness :
    matchesDefinition "symA" occA = true ∧
    ∃ loc, scipRange occA.range = some loc ∧
      loc.startLine = 0 + 1 ∧ loc.startColumn = 1 ∧
      findSymbolAtPosition docA (loc.startLine - 1) loc.startColumn = some "symA" :=
  roundtrip_shifted docA "symA" [] [] occA 0 1 0 5 rfl rfl (by decide)
    (Or.inl ⟨rfl, rfl⟩) (by decide)
    (fun o ho => absurd ho (List.not_mem_nil o))

end CodeBrowser
